import Mathlib

/-!
Shallow embedding of `src/lib/builder/writer.ts` (digo build writer).

Strings are modelled as `List Char`, JS numbers holding non-negative
integers as `Nat` (the one signed quantity, the `lastLineBreak` sentinel
which can be `-1`, is an `Int`).  Writer state is passed explicitly.
-/

/-- One mapping entry of the composed source map (see the object literals
pushed at `writer.ts:177` and `writer.ts:208`).  `column` is the generated
column; `sourceLine`/`sourceColumn` refer to the original source.  The
fresh entries pushed at line 177 carry no `nameIndex` (JS `undefined`),
modelled as `none`. -/
structure Mapping where
  column : Nat
  sourceIndex : Nat
  sourceLine : Nat
  sourceColumn : Nat
  nameIndex : Option Nat
deriving DecidableEq

/-- The read-only source map carried by an origin file
(`sourceFile.sourceMapBuilder` at `writer.ts:135`): a sources list and a
per-line table of mapping entries. -/
structure SourceMapData where
  sources : List String
  mappings : List (List Mapping)
deriving DecidableEq

/-- The slice of the external `File` object that `writer.ts` reads:
`srcPath`, `destPath` (used for the mapping source identity at line 179)
and the optional prior source map (`sourceMapBuilder`, line 135). -/
structure File where
  srcPath : String
  destPath : String
  sourceMapBuilder : Option SourceMapData
deriving DecidableEq

/-- JS `sourceFile.srcPath || sourceFile.destPath || ""` (line 179):
empty strings are falsy. -/
def File.mapPath (f : File) : String :=
  if f.srcPath ≠ "" then f.srcPath else if f.destPath ≠ "" then f.destPath else ""

/-- The mutable source-map builder owned by a `SourceMapWriter`
(`_sourceMapBuilder`, line 98): output file name, deduplicated sources
list, and the composed per-generated-line mapping table. -/
structure SourceMapBuilder where
  file : String
  sources : List String
  mappings : List (List Mapping)
deriving DecidableEq

/-- Index of the first occurrence of `t`, or `none`. -/
def findSource : List String → String → Option Nat
  | [], _ => none
  | s :: rest, t => if s = t then some 0 else (findSource rest t).map (· + 1)

/-- Modelled from the spec: `SourceMapBuilder.addSource` lives in
`src/lib/utility/sourceMap.ts`, which is not under `src/`; per spec §3 the
sources list is "ordered, deduplicated by original-path identity", so
`addSource` returns the index of an existing occurrence or appends the
path at the end and returns its index. -/
def addSource (b : SourceMapBuilder) (src : String) : SourceMapBuilder × Nat :=
  match findSource b.sources src with
  | some i => (b, i)
  | none => ({ b with sources := b.sources ++ [src] }, b.sources.length)

/-- Read `mappings[line]`, treating an absent line as `[]`
(JS `... || []`, lines 176 and 186). -/
def getLine (tbl : List (List Mapping)) (i : Nat) : List Mapping := tbl.getD i []

/-- Store a line's entry list, padding absent intermediate lines with `[]`
(JS sparse-array assignment `mappings[l] = ...`, line 176). -/
def setLine (tbl : List (List Mapping)) (i : Nat) (v : List Mapping) : List (List Mapping) :=
  if i < tbl.length then tbl.set i v
  else tbl ++ List.replicate (i - tbl.length) [] ++ [v]

/-- State of a `SourceMapWriter`: accumulated output (`content`, line 62),
the active indent (`indentString`, line 38), the output cursor
(`_currentLine`/`_currentColumn`, lines 118/123) and the owned builder. -/
structure SMWriter where
  content : List Char
  indentString : List Char
  currentLine : Nat
  currentColumn : Nat
  builder : SourceMapBuilder
deriving DecidableEq

/-- A freshly constructed `SourceMapWriter` (constructor at line 110):
empty content, no indent, cursor at 0:0, empty builder whose `file` field
is the target's path. -/
def freshWriter (filePath : String) : SMWriter :=
  { content := [], indentString := [], currentLine := 0, currentColumn := 0,
    builder := { file := filePath, sources := [], mappings := [] } }

/-- The backward scan of lines 139-145: index of the last `\r` or `\n` in
`content`, or `-1` when there is none. -/
def lastLineBreakAux : List Char → Nat → Int → Int
  | [], _, acc => acc
  | c :: rest, i, acc =>
      lastLineBreakAux rest (i + 1) (if c = '\r' ∨ c = '\n' then (i : Int) else acc)

/-- Position of the last line-break character of `content`, `-1` if none
(`lastLineBreak`, lines 139-145). -/
def lastLineBreakOf (content : List Char) : Int := lastLineBreakAux content 0 (-1)

/-- The pop of lines 203-205: when the line's current last entry sits at
`newColumn`, remove it so the copied entry replaces it. -/
def popIfSameColumn (line : List Mapping) (newColumn : Nat) : List Mapping :=
  match line.getLast? with
  | some lastE => if lastE.column = newColumn then line.dropLast else line
  | none => line

/-- The `for (const mapping of srcSourceMap.mappings[sourceLine] || [])`
loop of lines 186-216: walk the origin map's entries for the current
origin line, `continue` on the first-line trim (line 189), `break` on the
last-line trim (line 194), otherwise rebase the column (line 199), pop a
preceding entry at the same column (line 203) and push the copied entry
(line 208), re-pointing `sourceIndex` through the origin map's own
sources list via `addSource` (line 210).  `iEmit` is the JS loop index
`i` at the emission point (after the `\r\n` skip). -/
def spliceLoop (iEmit : Nat) (lastLineBreak : Int) (contentLen : Nat) (sourceColumn : Nat)
    (currentColumn : Nat) (sm : SourceMapData) :
    List Mapping → SourceMapBuilder → List Mapping → SourceMapBuilder × List Mapping
  | [], b, line => (b, line)
  | m :: rest, b, line =>
    if iEmit = 0 ∧ m.column < sourceColumn then
      spliceLoop iEmit lastLineBreak contentLen sourceColumn currentColumn sm rest b line
    else if (iEmit : Int) = lastLineBreak ∧
        (m.column : Int) ≥ (contentLen : Int) +
          (if iEmit = 0 then (sourceColumn : Int) else -lastLineBreak) then
      (b, line)
    else
      -- line 199; survivors of the line-189 trim have `column ≥ sourceColumn`
      -- (and `sourceColumn = 0` when `iEmit ≠ 0`), so ℕ subtraction is exact
      let newColumn := m.column - sourceColumn + currentColumn
      let p := addSource b (sm.sources.getD m.sourceIndex "")
      spliceLoop iEmit lastLineBreak contentLen sourceColumn currentColumn sm rest p.1
        (popIfSameColumn line newColumn ++
          [{ column := newColumn, sourceIndex := p.2, sourceLine := m.sourceLine,
             sourceColumn := m.sourceColumn, nameIndex := m.nameIndex }])

/-- The mapping-emission block of lines 173-219: push the fresh entry for
the current output position (lines 176-182), then, when the origin file
carries its own map, splice its entries in (lines 185-217). -/
def processEmit (iEmit : Nat) (lastLineBreak : Int) (contentLen : Nat)
    (originPath : String) (srcMap : Option SourceMapData)
    (sourceLine sourceColumn : Nat) (st : SMWriter) : SMWriter :=
  let line0 := getLine st.builder.mappings st.currentLine
  let p := addSource st.builder originPath
  let line1 := line0 ++ [{ column := st.currentColumn, sourceIndex := p.2,
                           sourceLine := sourceLine, sourceColumn := sourceColumn,
                           nameIndex := none }]
  let q :=
    match srcMap with
    | none => (p.1, line1)
    | some sm =>
        spliceLoop iEmit lastLineBreak contentLen sourceColumn st.currentColumn sm
          (getLine sm.mappings sourceLine) p.1 line1
  { st with builder := { q.1 with mappings := setLine q.1.mappings st.currentLine q.2 } }

/-- One iteration of the character loop (lines 148-221) for the character
`c`; `pair` is true when `c` is the `\r` of a `\r\n` pair, in which case
the loop also appended the `\n` and advanced `i` (lines 153-158).  The
character is appended verbatim (line 149; plus the explicit `"\n"` of
line 156 for a pair); on a line break the output line, origin cursor and
indent re-insertion are updated (lines 160-170); the mapping emission of
lines 173-219 runs when an origin file is present and this is a break or
the start of the text.  Returns the updated origin cursor and state. -/
def stepChar (origin : Option File) (srcMap : Option SourceMapData) (lastLineBreak : Int)
    (contentLen : Nat) (c : Char) (pair : Bool) (i : Nat) (sl sc : Nat) (st : SMWriter) :
    Nat × Nat × SMWriter :=
  let st1 := { st with content := st.content ++ [c] ++ (if pair then ['\n'] else []) }
  let iEmit := if pair then i + 1 else i
  if c = '\r' ∨ c = '\n' then
    let st2 :=
      if st1.indentString ≠ [] then
        { st1 with currentLine := st1.currentLine + 1,
                   content := st1.content ++ st1.indentString,
                   currentColumn := st1.indentString.length }
      else
        { st1 with currentLine := st1.currentLine + 1, currentColumn := 0 }
    let st3 :=
      match origin with
      | some f => processEmit iEmit lastLineBreak contentLen f.mapPath srcMap (sl + 1) 0 st2
      | none => st2
    (sl + 1, 0, st3)
  else
    let st2 :=
      if iEmit = 0 then
        match origin with
        | some f => processEmit iEmit lastLineBreak contentLen f.mapPath srcMap sl sc st1
        | none => st1
      else st1
    (sl, sc, st2)

/-- The character loop of lines 148-221, consuming the remaining input.
A `\r` immediately followed by `\n` is consumed as one pair (`i++` of
line 155); all other characters are consumed one at a time. -/
def writeLoop (origin : Option File) (srcMap : Option SourceMapData) (lastLineBreak : Int)
    (contentLen : Nat) : List Char → Nat → Nat → Nat → SMWriter → SMWriter
  | [], _, _, _, st => st
  | c :: d :: rest, i, sl, sc, st =>
    if c = '\r' ∧ d = '\n' then
      let r := stepChar origin srcMap lastLineBreak contentLen c true i sl sc st
      writeLoop origin srcMap lastLineBreak contentLen rest (i + 2) r.1 r.2.1 r.2.2
    else
      let r := stepChar origin srcMap lastLineBreak contentLen c false i sl sc st
      writeLoop origin srcMap lastLineBreak contentLen (d :: rest) (i + 1) r.1 r.2.1 r.2.2
  | [c], i, sl, sc, st =>
    (stepChar origin srcMap lastLineBreak contentLen c false i sl sc st).2.2

/-- The final column update of line 224:
`content.length + (lastLineBreak < 0 ? _currentColumn : -lastLineBreak + indentLen)`. -/
def finishColumn (lastLineBreak : Int) (contentLen : Nat) (st : SMWriter) : SMWriter :=
  { st with currentColumn :=
      if lastLineBreak < 0 then contentLen + st.currentColumn
      else contentLen - lastLineBreak.toNat +
        (if st.indentString ≠ [] then st.indentString.length else 0) }

/-- Origin file of a `write` call's optional `(sourceFile, sourceLine,
sourceColumn)` arguments. -/
def originFileOf : Option (File × Nat × Nat) → Option File
  | some o => some o.1
  | none => none

/-- `srcSourceMap = sourceFile && sourceFile.sourceMapBuilder` (line 135). -/
def srcMapOf : Option (File × Nat × Nat) → Option SourceMapData
  | some o => o.1.sourceMapBuilder
  | none => none

/-- Initial origin line of a `write` call (0 when no origin is given; with
no origin the value is never observed since no mapping is emitted). -/
def originLineOf : Option (File × Nat × Nat) → Nat
  | some o => o.2.1
  | none => 0

/-- Initial origin column of a `write` call (0 when no origin is given). -/
def originColOf : Option (File × Nat × Nat) → Nat
  | some o => o.2.2
  | none => 0

/-- `SourceMapWriter.write` (lines 132-226).  The caller either passes no
origin or a full `(sourceFile, sourceLine, sourceColumn)` triple — the
untyped JS path where a file is passed without line/column (which would
make `sourceLine++` produce `NaN`) is a caller-contract violation per
spec §7 and is not modelled. -/
def SourceMapWriter.write (st : SMWriter) (content : List Char)
    (origin : Option (File × Nat × Nat)) : SMWriter :=
  finishColumn (lastLineBreakOf content) content.length
    (writeLoop (originFileOf origin) (srcMapOf origin) (lastLineBreakOf content)
      content.length content 0 (originLineOf origin) (originColOf origin) st)

/-- The regex replacement of the base class `Writer.write` (line 72):
every line-break match (`\r\n`, lone `\r`, or lone `\n`) is kept (`$&`)
and followed by the indent string. -/
def indentAfterBreaks (ind : List Char) : List Char → List Char
  | [] => []
  | c :: d :: rest =>
    if c = '\r' ∧ d = '\n' then c :: d :: (ind ++ indentAfterBreaks ind rest)
    else if c = '\r' ∨ c = '\n' then c :: (ind ++ indentAfterBreaks ind (d :: rest))
    else c :: indentAfterBreaks ind (d :: rest)
  | [c] => if c = '\r' ∨ c = '\n' then c :: ind else [c]

/-- The base class `Writer.write` (lines 71-73): append `content` to the
accumulated text, re-inserting the indent after every line break when an
indent is active (empty `indentString` is falsy). -/
def Writer.write (wcontent : List Char) (indentString : List Char)
    (content : List Char) : List Char :=
  wcontent ++ (if indentString ≠ [] then indentAfterBreaks indentString content else content)

/-- `Writer.indent` (line 48). -/
def Writer.indent (indentString indentChar : List Char) : List Char :=
  indentString ++ indentChar

/-- `Writer.unindent` (line 53): `substr(0, len - indentChar.length)`. -/
def Writer.unindent (indentString indentChar : List Char) : List Char :=
  indentString.take (indentString.length - indentChar.length)

/- ### Spec-side observation helpers (used only to state properties) -/

/-- Number of line breaks of a text, counting `\r\n` as one break. -/
def countLineBreaks : List Char → Nat
  | [] => 0
  | c :: d :: rest =>
    if c = '\r' ∧ d = '\n' then 1 + countLineBreaks rest
    else (if c = '\r' ∨ c = '\n' then 1 else 0) + countLineBreaks (d :: rest)
  | [c] => if c = '\r' ∨ c = '\n' then 1 else 0

/-- The true rendered column at the end of a text: the number of
characters after its last line-break character. -/
def lastLineLength (s : List Char) : Nat :=
  (s.reverse.takeWhile (fun c => ¬(c = '\r' ∨ c = '\n'))).length

/-- Whether a text contains any line-break character. -/
def hasLineBreak (s : List Char) : Bool := s.any (fun c => c == '\r' || c == '\n')

/-- Cursor-visible state of a writer: everything except the builder. -/
def cursorEq (a b : SMWriter) : Prop :=
  a.content = b.content ∧ a.indentString = b.indentString ∧
  a.currentLine = b.currentLine ∧ a.currentColumn = b.currentColumn

/- ### BufferStream (lines 258-338) -/

/-- `Buffer.allocUnsafe(n)` (Node): a fresh buffer of `n` bytes whose
contents are unspecified; modelled with zero bytes (no claim here depends
on the unspecified contents). -/
def allocUnsafe (n : Nat) : List Nat := List.replicate n 0

/-- Node `source.copy(target, targetStart, sourceStart, sourceEnd)`: copy
bytes of `[sourceStart, sourceEnd)` into `target` at `targetStart`,
truncated to what fits in the target and exists in the source; the number
of bytes copied is the minimum of the requested range, the source's
remaining bytes, and the target's remaining room. -/
def bufCopy (source target : List Nat) (targetStart sourceStart sourceEnd : Nat) : List Nat :=
  target.take targetStart ++
    (source.drop sourceStart).take
      (min (min (sourceEnd - sourceStart) (source.length - sourceStart))
        (target.length - targetStart)) ++
    target.drop (targetStart +
      min (min (sourceEnd - sourceStart) (source.length - sourceStart))
        (target.length - targetStart))

/-- State of a `BufferStream`: the backing buffer `_buffer` (line 268,
capacity = `buffer.length`, line 283) and the live length `_length`
(line 273). -/
structure BufferStream where
  buffer : List Nat
  length : Nat
deriving DecidableEq

/-- A freshly constructed `BufferStream`: `Buffer.allocUnsafe(128 * 1024)`
and length 0 (lines 268-273). -/
def BufferStream.initial : BufferStream :=
  { buffer := allocUnsafe (128 * 1024), length := 0 }

/-- `BufferStream.ensureCapacity` (lines 299-306): return unchanged when
`length < capacity`; otherwise allocate `min(length, capacity * 2 - 1)`
bytes and copy the live region `[0, _length)` across. -/
def BufferStream.ensureCapacity (s : BufferStream) (length : Nat) : BufferStream :=
  if length < s.buffer.length then s
  else
    { s with buffer :=
        bufCopy s.buffer (allocUnsafe (min length (s.buffer.length * 2 - 1))) 0 0 s.length }

/-- `BufferStream._write` (lines 315-320): ensure capacity for
`_length + chunk.length`, copy the chunk in at offset `_length`
(`chunk.copy(this._buffer, this._length, 0)`, with `sourceEnd` defaulting
to `chunk.length`), and advance `_length`. -/
def BufferStream._write (s : BufferStream) (chunk : List Nat) : BufferStream :=
  { buffer := bufCopy chunk (s.ensureCapacity (s.length + chunk.length)).buffer
      (s.ensureCapacity (s.length + chunk.length)).length 0 chunk.length,
    length := (s.ensureCapacity (s.length + chunk.length)).length + chunk.length }

/-- `BufferStream.toBuffer` (lines 327-331): copy `[start, end)` out of
the backing buffer into a fresh `end - start`-byte buffer. -/
def BufferStream.toBuffer (s : BufferStream) (start e : Nat) : List Nat :=
  bufCopy s.buffer (allocUnsafe (e - start)) 0 start e

/- ### Concrete scenarios used by the claims -/

/-- An opaque original file `O` with no source map of its own. -/
def fileO : File := { srcPath := "O", destPath := "", sourceMapBuilder := none }

/-- Stage 1 of the C1 scenario: write two characters with no origin, then
one character with origin `O:5:7`.  Its map `M1` has a single entry, at
generated column 2, pointing at `O:5:7`. -/
def stage1Writer : SMWriter :=
  SourceMapWriter.write (SourceMapWriter.write (freshWriter "out1") ("xy".toList) none)
    ("z".toList) (some (fileO, 5, 7))

/-- The map `M1` produced by stage 1, in the read-only form a later stage
consumes. -/
def m1Data : SourceMapData :=
  { sources := stage1Writer.builder.sources, mappings := stage1Writer.builder.mappings }

/-- The stage-1 intermediate file, carrying `M1`. -/
def stage1File : File := { srcPath := "S1", destPath := "", sourceMapBuilder := some m1Data }

/-- Stage 2 of the C1 scenario: write stage-1's output `"xyz"` verbatim
with stage-1's file as origin and `M1` as its map. -/
def stage2Writer : SMWriter :=
  SourceMapWriter.write (freshWriter "out2") ("xyz".toList) (some (stage1File, 0, 0))

/-- C2 scenario, first write: `"a\nb"` with no origin, on a fresh writer. -/
def c2_st1 : SMWriter := SourceMapWriter.write (freshWriter "out") ("a\nb".toList) none

/-- A map-less origin file used by the C2 scenario. -/
def c2_file : File := { srcPath := "A", destPath := "", sourceMapBuilder := none }

/-- C2 scenario, second write: `"x"` with origin `A:0:0`. -/
def c2_st2 : SMWriter := SourceMapWriter.write c2_st1 ("x".toList) (some (c2_file, 0, 0))

/-- Origin map for the single-line C3 scenario: one entry on line 0 at
column 5, well past the two columns the write consumes. -/
def c3_origData : SourceMapData :=
  { sources := ["orig"], mappings := [[⟨5, 0, 0, 5, none⟩]] }

/-- Origin file of the single-line C3 scenario. -/
def c3_fileA : File := { srcPath := "A", destPath := "", sourceMapBuilder := some c3_origData }

/-- C3 scenario: a one-line chunk `"ab"` (no trailing break) written with
origin `A:0:0`. -/
def c3_single : SMWriter :=
  SourceMapWriter.write (freshWriter "o") ("ab".toList) (some (c3_fileA, 0, 0))

/-- Origin map for the two-line C3 scenario: on origin line 1 a single
entry at column 1, which sits exactly at the end of the one-character
portion of that line consumed by the write. -/
def c3_origData2 : SourceMapData :=
  { sources := ["orig"], mappings := [[], [⟨1, 0, 1, 1, none⟩]] }

/-- Origin file of the two-line C3 scenario. -/
def c3_fileB : File := { srcPath := "B", destPath := "", sourceMapBuilder := some c3_origData2 }

/-- C3 scenario: `"a\nb"` written with origin `B:0:0`; the chunk's last
line consumes exactly one column of origin line 1. -/
def c3_multi : SMWriter :=
  SourceMapWriter.write (freshWriter "o") ("a\nb".toList) (some (c3_fileB, 0, 0))

/-- A map-less origin file used by the C5 witness. -/
def c5_file : File := { srcPath := "F", destPath := "", sourceMapBuilder := none }

/-- Origin file of the C6 scenario, a plain leaf source. -/
def c6_fileA : File := { srcPath := "fileA", destPath := "", sourceMapBuilder := none }

/-- C6 scenario: `"abc\ndef"` with origin `(fileA, line 2, column 5)` on a
fresh writer with no indentation. -/
def c6_result : SMWriter :=
  SourceMapWriter.write (freshWriter "out") ("abc\ndef".toList) (some (c6_fileA, 2, 5))

/-- C6 indent scenario: `"a\nb"` with origin `(fileA, 2, 5)` on a fresh
writer whose active indent is two spaces. -/
def c6_indent : SMWriter :=
  SourceMapWriter.write { freshWriter "out" with indentString := [' ', ' '] }
    ("a\nb".toList) (some (c6_fileA, 2, 5))

/-- Origin map for the C7 scenario: line 0 sorted ascending, with a
second entry at column 50 — far beyond the two columns the write
consumes. -/
def c7_origMap : SourceMapData :=
  { sources := ["orig"], mappings := [[⟨0, 0, 0, 0, none⟩, ⟨50, 0, 0, 50, none⟩]] }

/-- Origin file carrying `c7_origMap`. -/
def c7_fileA : File := { srcPath := "A", destPath := "", sourceMapBuilder := some c7_origMap }

/-- A map-less origin file for the second C7 write. -/
def c7_fileB : File := { srcPath := "B", destPath := "", sourceMapBuilder := none }

/-- C7 scenario: `"ab"` with origin `A:0:0` (splicing the column-50
entry), then `"x"` with origin `B:0:0` on the same generated line. -/
def c7_result : SMWriter :=
  SourceMapWriter.write
    (SourceMapWriter.write (freshWriter "o") ("ab".toList) (some (c7_fileA, 0, 0)))
    ("x".toList) (some (c7_fileB, 0, 0))

/-- C8 scenario: a single 262144-byte chunk (= 2 × the initial capacity)
appended to a fresh `BufferStream`. -/
def c8_result : BufferStream := BufferStream._write BufferStream.initial (List.replicate 262144 1)

/-- C9 scenario: a single 262145-byte chunk appended to a fresh
`BufferStream`. -/
def c9_result : BufferStream := BufferStream._write BufferStream.initial (List.replicate 262145 2)

/- ### Helper lemmas -/

theorem findSource_lt : ∀ {l : List String} {t : String} {i : Nat},
    findSource l t = some i → i < l.length
  | [], _, _, h => by simp [findSource] at h
  | s :: rest, t, i, h => by
    by_cases hs : s = t
    · simp only [findSource, if_pos hs, Option.some.injEq] at h
      simp [← h]
    · simp only [findSource, if_neg hs] at h
      cases hj : findSource rest t with
      | none => rw [hj] at h; simp at h
      | some j =>
        rw [hj] at h
        simp only [Option.map_some', Option.some.injEq] at h
        have := findSource_lt hj
        simp only [List.length_cons]
        omega

theorem findSource_getD : ∀ {l : List String} {t : String} {i : Nat},
    findSource l t = some i → l.getD i "" = t
  | [], _, _, h => by simp [findSource] at h
  | s :: rest, t, i, h => by
    by_cases hs : s = t
    · simp only [findSource, if_pos hs, Option.some.injEq] at h
      simp [← h, hs]
    · simp only [findSource, if_neg hs] at h
      cases hj : findSource rest t with
      | none => rw [hj] at h; simp at h
      | some j =>
        rw [hj] at h
        simp only [Option.map_some', Option.some.injEq] at h
        rw [← h]
        simpa using findSource_getD hj

theorem addSource_sources_extend (b : SourceMapBuilder) (s : String) :
    ∃ t, (addSource b s).1.sources = b.sources ++ t := by
  unfold addSource
  cases h : findSource b.sources s with
  | some i => exact ⟨[], by simp⟩
  | none => exact ⟨[s], rfl⟩

theorem addSource_mappings (b : SourceMapBuilder) (s : String) :
    (addSource b s).1.mappings = b.mappings := by
  unfold addSource
  cases h : findSource b.sources s <;> rfl

theorem addSource_idx_lt (b : SourceMapBuilder) (s : String) :
    (addSource b s).2 < (addSource b s).1.sources.length := by
  unfold addSource
  cases h : findSource b.sources s with
  | some i => exact findSource_lt h
  | none => simp

theorem addSource_getD_self (b : SourceMapBuilder) (s : String) :
    (addSource b s).1.sources.getD (addSource b s).2 "" = s := by
  unfold addSource
  cases h : findSource b.sources s with
  | some i => exact findSource_getD h
  | none =>
    simp only
    rw [List.getD_append_right _ _ _ _ (le_refl _)]
    simp

theorem popIfSameColumn_subset (line : List Mapping) (nc : Nat) :
    popIfSameColumn line nc ⊆ line := by
  unfold popIfSameColumn
  cases line.getLast? with
  | none => exact fun x hx => hx
  | some lastE =>
    dsimp only
    split
    · exact List.dropLast_subset line
    · exact fun x hx => hx

theorem spliceLoop_sources_extend (iE : Nat) (lb : Int) (cl sc cc : Nat) (sm : SourceMapData) :
    ∀ (ms : List Mapping) (b : SourceMapBuilder) (line : List Mapping),
      ∃ t, (spliceLoop iE lb cl sc cc sm ms b line).1.sources = b.sources ++ t
  | [], b, line => ⟨[], by simp [spliceLoop]⟩
  | m :: rest, b, line => by
    by_cases h1 : iE = 0 ∧ m.column < sc
    · rw [show spliceLoop iE lb cl sc cc sm (m :: rest) b line =
          spliceLoop iE lb cl sc cc sm rest b line from by
        simp [spliceLoop, h1]]
      exact spliceLoop_sources_extend iE lb cl sc cc sm rest b line
    · by_cases h2 : (iE : Int) = lb ∧
          (m.column : Int) ≥ (cl : Int) + (if iE = 0 then (sc : Int) else -lb)
      · exact ⟨[], by simp [spliceLoop, h1, h2]⟩
      · rw [show spliceLoop iE lb cl sc cc sm (m :: rest) b line =
            spliceLoop iE lb cl sc cc sm rest
              (addSource b (sm.sources.getD m.sourceIndex "")).1
              (popIfSameColumn line (m.column - sc + cc) ++
                [{ column := m.column - sc + cc,
                   sourceIndex := (addSource b (sm.sources.getD m.sourceIndex "")).2,
                   sourceLine := m.sourceLine, sourceColumn := m.sourceColumn,
                   nameIndex := m.nameIndex }]) from by
          simp [spliceLoop, h1, h2]]
        obtain ⟨t1, ht1⟩ := addSource_sources_extend b (sm.sources.getD m.sourceIndex "")
        obtain ⟨t2, ht2⟩ := spliceLoop_sources_extend iE lb cl sc cc sm rest
          (addSource b (sm.sources.getD m.sourceIndex "")).1
          (popIfSameColumn line (m.column - sc + cc) ++
            [{ column := m.column - sc + cc,
               sourceIndex := (addSource b (sm.sources.getD m.sourceIndex "")).2,
               sourceLine := m.sourceLine, sourceColumn := m.sourceColumn,
               nameIndex := m.nameIndex }])
        exact ⟨t1 ++ t2, by rw [ht2, ht1, List.append_assoc]⟩

theorem getD_append_of_lt {l t : List String} {i : Nat} (h : i < l.length) :
    (l ++ t).getD i "" = l.getD i "" :=
  List.getD_append l t "" i h

/- ### Claim theorems -/

/-- C1 (amended): every entry produced by the splice of lines 186-216 is
either an entry the output line already had, or a copy of an entry `m` of
the origin map's line with `sourceLine`, `sourceColumn` and `nameIndex`
preserved unchanged and its `sourceIndex` re-pointed through the origin
map's own sources list, so that in the final builder the copied entry's
source path is exactly the origin map's path `sm.sources[m.sourceIndex]`
(composing transitively, never the intermediate file). -/
theorem c1_splice_preserves_origin (iE : Nat) (lb : Int) (cl sc cc : Nat)
    (sm : SourceMapData) :
    ∀ (ms : List Mapping) (b : SourceMapBuilder) (line : List Mapping) (e : Mapping),
      e ∈ (spliceLoop iE lb cl sc cc sm ms b line).2 →
      e ∈ line ∨ ∃ m ∈ ms, e.sourceLine = m.sourceLine ∧ e.sourceColumn = m.sourceColumn ∧
        e.nameIndex = m.nameIndex ∧
        (spliceLoop iE lb cl sc cc sm ms b line).1.sources.getD e.sourceIndex "" =
          sm.sources.getD m.sourceIndex ""
  | [], b, line, e, he => Or.inl (by simpa [spliceLoop] using he)
  | m :: rest, b, line, e, he => by
    by_cases h1 : iE = 0 ∧ m.column < sc
    · rw [show spliceLoop iE lb cl sc cc sm (m :: rest) b line =
          spliceLoop iE lb cl sc cc sm rest b line from by simp [spliceLoop, h1]] at he ⊢
      rcases c1_splice_preserves_origin iE lb cl sc cc sm rest b line e he with h | ⟨m', hm', h⟩
      · exact Or.inl h
      · exact Or.inr ⟨m', List.mem_cons_of_mem _ hm', h⟩
    · by_cases h2 : (iE : Int) = lb ∧
          (m.column : Int) ≥ (cl : Int) + (if iE = 0 then (sc : Int) else -lb)
      · rw [show spliceLoop iE lb cl sc cc sm (m :: rest) b line = (b, line) from by
          simp [spliceLoop, h1, h2]] at he ⊢
        exact Or.inl he
      · rw [show spliceLoop iE lb cl sc cc sm (m :: rest) b line =
            spliceLoop iE lb cl sc cc sm rest
              (addSource b (sm.sources.getD m.sourceIndex "")).1
              (popIfSameColumn line (m.column - sc + cc) ++
                [{ column := m.column - sc + cc,
                   sourceIndex := (addSource b (sm.sources.getD m.sourceIndex "")).2,
                   sourceLine := m.sourceLine, sourceColumn := m.sourceColumn,
                   nameIndex := m.nameIndex }]) from by simp [spliceLoop, h1, h2]] at he ⊢
        rcases c1_splice_preserves_origin iE lb cl sc cc sm rest
            (addSource b (sm.sources.getD m.sourceIndex "")).1
            (popIfSameColumn line (m.column - sc + cc) ++
              [{ column := m.column - sc + cc,
                 sourceIndex := (addSource b (sm.sources.getD m.sourceIndex "")).2,
                 sourceLine := m.sourceLine, sourceColumn := m.sourceColumn,
                 nameIndex := m.nameIndex }]) e he with h | ⟨m', hm', h⟩
        · rcases List.mem_append.mp h with hL | hE
          · exact Or.inl (popIfSameColumn_subset line (m.column - sc + cc) hL)
          · -- `e` is the freshly copied entry for `m`
            have he2 : e = { column := m.column - sc + cc,
                             sourceIndex := (addSource b (sm.sources.getD m.sourceIndex "")).2,
                             sourceLine := m.sourceLine, sourceColumn := m.sourceColumn,
                             nameIndex := m.nameIndex } := by simpa using hE
            refine Or.inr ⟨m, List.mem_cons_self m rest, by rw [he2], by rw [he2],
              by rw [he2], ?_⟩
            obtain ⟨t2, ht2⟩ := spliceLoop_sources_extend iE lb cl sc cc sm rest
              (addSource b (sm.sources.getD m.sourceIndex "")).1
              (popIfSameColumn line (m.column - sc + cc) ++
                [{ column := m.column - sc + cc,
                   sourceIndex := (addSource b (sm.sources.getD m.sourceIndex "")).2,
                   sourceLine := m.sourceLine, sourceColumn := m.sourceColumn,
                   nameIndex := m.nameIndex }])
            rw [ht2, he2]
            rw [getD_append_of_lt (addSource_idx_lt b (sm.sources.getD m.sourceIndex ""))]
            exact addSource_getD_self b (sm.sources.getD m.sourceIndex "")
        · exact Or.inr ⟨m', List.mem_cons_of_mem _ hm', h⟩

theorem processEmit_content (iE : Nat) (lb : Int) (cl : Nat) (p : String)
    (sm : Option SourceMapData) (sl sc : Nat) (st : SMWriter) :
    (processEmit iE lb cl p sm sl sc st).content = st.content := rfl

theorem processEmit_indentString (iE : Nat) (lb : Int) (cl : Nat) (p : String)
    (sm : Option SourceMapData) (sl sc : Nat) (st : SMWriter) :
    (processEmit iE lb cl p sm sl sc st).indentString = st.indentString := rfl

theorem processEmit_currentLine (iE : Nat) (lb : Int) (cl : Nat) (p : String)
    (sm : Option SourceMapData) (sl sc : Nat) (st : SMWriter) :
    (processEmit iE lb cl p sm sl sc st).currentLine = st.currentLine := rfl

theorem processEmit_currentColumn (iE : Nat) (lb : Int) (cl : Nat) (p : String)
    (sm : Option SourceMapData) (sl sc : Nat) (st : SMWriter) :
    (processEmit iE lb cl p sm sl sc st).currentColumn = st.currentColumn := rfl

theorem stepChar_fields (o : Option File) (sm : Option SourceMapData) (lb : Int) (cl : Nat)
    (c : Char) (pair : Bool) (i sl sc : Nat) (st : SMWriter) :
    (stepChar o sm lb cl c pair i sl sc st).2.2.content =
      st.content ++ [c] ++ (if pair then ['\n'] else []) ++
        (if (c = '\r' ∨ c = '\n') ∧ st.indentString ≠ [] then st.indentString else []) ∧
    (stepChar o sm lb cl c pair i sl sc st).2.2.indentString = st.indentString ∧
    (stepChar o sm lb cl c pair i sl sc st).2.2.currentLine =
      st.currentLine + (if c = '\r' ∨ c = '\n' then 1 else 0) ∧
    (stepChar o sm lb cl c pair i sl sc st).2.2.currentColumn =
      (if c = '\r' ∨ c = '\n' then
        (if st.indentString ≠ [] then st.indentString.length else 0)
      else st.currentColumn) := by
  simp only [stepChar]
  by_cases hbr : c = '\r' ∨ c = '\n'
  · by_cases hind : st.indentString ≠ []
    · cases o <;>
        simp [hbr, hind, processEmit_content, processEmit_indentString,
          processEmit_currentLine, processEmit_currentColumn]
    · cases o <;>
        simp [hbr, hind, processEmit_content, processEmit_indentString,
          processEmit_currentLine, processEmit_currentColumn]
  · by_cases hi : (if pair then i + 1 else i) = 0
    · cases o <;>
        simp [hbr, hi, processEmit_content, processEmit_indentString,
          processEmit_currentLine, processEmit_currentColumn]
    · simp [hbr, hi]

theorem stepChar_cursorEq (o o' : Option File) (sm sm' : Option SourceMapData)
    (lb lb' : Int) (cl cl' : Nat) (c : Char) (pair : Bool) (i i' sl sc sl2 sc2 : Nat)
    (st st' : SMWriter) (h : cursorEq st st') :
    cursorEq (stepChar o sm lb cl c pair i sl sc st).2.2
      (stepChar o' sm' lb' cl' c pair i' sl2 sc2 st').2.2 := by
  obtain ⟨h1, h2, h3, h4⟩ := h
  obtain ⟨a1, a2, a3, a4⟩ := stepChar_fields o sm lb cl c pair i sl sc st
  obtain ⟨b1, b2, b3, b4⟩ := stepChar_fields o' sm' lb' cl' c pair i' sl2 sc2 st'
  exact ⟨by simp only [a1, b1, h1, h2], by simp only [a2, b2, h2],
    by simp only [a3, b3, h3], by simp only [a4, b4, h2, h4]⟩

theorem writeLoop_cursorEq : ∀ (cs : List Char) (o o' : Option File)
    (sm sm' : Option SourceMapData) (lb lb' : Int) (cl cl' : Nat)
    (i i' sl sc sl2 sc2 : Nat) (st st' : SMWriter), cursorEq st st' →
    cursorEq (writeLoop o sm lb cl cs i sl sc st) (writeLoop o' sm' lb' cl' cs i' sl2 sc2 st')
  | [], _, _, _, _, _, _, _, _, _, _, _, _, _, _, st, st', h => by
    simpa [writeLoop] using h
  | [c], o, o', sm, sm', lb, lb', cl, cl', i, i', sl, sc, sl2, sc2, st, st', h => by
    simp only [writeLoop]
    exact stepChar_cursorEq o o' sm sm' lb lb' cl cl' c false i i' sl sc sl2 sc2 st st' h
  | c :: d :: rest, o, o', sm, sm', lb, lb', cl, cl', i, i', sl, sc, sl2, sc2, st, st', h => by
    simp only [writeLoop]
    by_cases hp : c = '\r' ∧ d = '\n'
    · simp only [if_pos hp]
      exact writeLoop_cursorEq rest o o' sm sm' lb lb' cl cl' _ _ _ _ _ _ _ _
        (stepChar_cursorEq o o' sm sm' lb lb' cl cl' c true i i' sl sc sl2 sc2 st st' h)
    · simp only [if_neg hp]
      exact writeLoop_cursorEq (d :: rest) o o' sm sm' lb lb' cl cl' _ _ _ _ _ _ _ _
        (stepChar_cursorEq o o' sm sm' lb lb' cl cl' c false i i' sl sc sl2 sc2 st st' h)

theorem stepChar_builder_none (sm : Option SourceMapData) (lb : Int) (cl : Nat) (c : Char)
    (pair : Bool) (i sl sc : Nat) (st : SMWriter) :
    (stepChar none sm lb cl c pair i sl sc st).2.2.builder = st.builder := by
  simp only [stepChar]
  by_cases hbr : c = '\r' ∨ c = '\n'
  · by_cases hind : st.indentString ≠ [] <;> simp [hbr, hind]
  · by_cases hi : (if pair then i + 1 else i) = 0 <;> simp [hbr, hi]

theorem writeLoop_builder_none : ∀ (cs : List Char) (sm : Option SourceMapData) (lb : Int)
    (cl : Nat) (i sl sc : Nat) (st : SMWriter),
    (writeLoop none sm lb cl cs i sl sc st).builder = st.builder
  | [], _, _, _, _, _, _, st => rfl
  | [c], sm, lb, cl, i, sl, sc, st => by
    simp only [writeLoop]
    exact stepChar_builder_none sm lb cl c false i sl sc st
  | c :: d :: rest, sm, lb, cl, i, sl, sc, st => by
    simp only [writeLoop]
    by_cases hp : c = '\r' ∧ d = '\n'
    · simp only [if_pos hp]
      rw [writeLoop_builder_none rest sm lb cl _ _ _ _]
      exact stepChar_builder_none sm lb cl c true i sl sc st
    · simp only [if_neg hp]
      rw [writeLoop_builder_none (d :: rest) sm lb cl _ _ _ _]
      exact stepChar_builder_none sm lb cl c false i sl sc st

theorem writeLoop_verbatim : ∀ (cs : List Char) (o : Option File)
    (sm : Option SourceMapData) (lb : Int) (cl : Nat) (i sl sc : Nat) (st : SMWriter),
    st.indentString = [] →
    (writeLoop o sm lb cl cs i sl sc st).content = st.content ++ cs ∧
    (writeLoop o sm lb cl cs i sl sc st).currentLine = st.currentLine + countLineBreaks cs ∧
    (writeLoop o sm lb cl cs i sl sc st).indentString = []
  | [], o, sm, lb, cl, i, sl, sc, st, h => by simp [writeLoop, countLineBreaks, h]
  | [c], o, sm, lb, cl, i, sl, sc, st, h => by
    simp only [writeLoop]
    obtain ⟨a1, a2, a3, a4⟩ := stepChar_fields o sm lb cl c false i sl sc st
    refine ⟨?_, ?_, by rw [a2, h]⟩
    · rw [a1, h]
      simp
    · rw [a3]
      simp [countLineBreaks]
  | c :: d :: rest, o, sm, lb, cl, i, sl, sc, st, h => by
    simp only [writeLoop]
    by_cases hp : c = '\r' ∧ d = '\n'
    · simp only [if_pos hp]
      obtain ⟨a1, a2, a3, a4⟩ := stepChar_fields o sm lb cl c true i sl sc st
      have hind : (stepChar o sm lb cl c true i sl sc st).2.2.indentString = [] := by
        rw [a2, h]
      obtain ⟨b1, b2, b3⟩ := writeLoop_verbatim rest o sm lb cl (i + 2)
        (stepChar o sm lb cl c true i sl sc st).1
        (stepChar o sm lb cl c true i sl sc st).2.1
        (stepChar o sm lb cl c true i sl sc st).2.2 hind
      refine ⟨?_, ?_, b3⟩
      · rw [b1, a1, h, hp.1, hp.2]
        simp
      · rw [b2, a3, hp.1]
        simp [countLineBreaks, hp.1, hp.2, Nat.add_assoc]
    · simp only [if_neg hp]
      obtain ⟨a1, a2, a3, a4⟩ := stepChar_fields o sm lb cl c false i sl sc st
      have hind : (stepChar o sm lb cl c false i sl sc st).2.2.indentString = [] := by
        rw [a2, h]
      obtain ⟨b1, b2, b3⟩ := writeLoop_verbatim (d :: rest) o sm lb cl (i + 1)
        (stepChar o sm lb cl c false i sl sc st).1
        (stepChar o sm lb cl c false i sl sc st).2.1
        (stepChar o sm lb cl c false i sl sc st).2.2 hind
      refine ⟨?_, ?_, b3⟩
      · rw [b1, a1, h]
        simp
      · rw [b2, a3]
        by_cases hbr : c = '\r' ∨ c = '\n' <;>
          simp [countLineBreaks, hp, hbr, Nat.add_assoc]

theorem processEmit_none_eq (iE : Nat) (lb : Int) (cl : Nat) (p : String)
    (sl sc : Nat) (st : SMWriter) :
    processEmit iE lb cl p none sl sc st =
      { st with builder := { (addSource st.builder p).1 with
          mappings := setLine (addSource st.builder p).1.mappings st.currentLine
            (getLine st.builder.mappings st.currentLine ++
              [⟨st.currentColumn, (addSource st.builder p).2, sl, sc, none⟩]) } } := rfl

theorem stepChar_nonbreak_noemit (o : Option File) (sm : Option SourceMapData) (lb : Int)
    (cl : Nat) (c : Char) (pair : Bool) (i sl sc : Nat) (st : SMWriter)
    (hbr : ¬(c = '\r' ∨ c = '\n')) (hi : ¬(if pair then i + 1 else i) = 0) :
    stepChar o sm lb cl c pair i sl sc st =
      (sl, sc, { st with content := st.content ++ [c] ++ (if pair then ['\n'] else []) }) := by
  simp only [stepChar, if_neg hbr, if_neg hi]

theorem stepChar_first_nonbreak (o : Option File) (sm : Option SourceMapData) (lb : Int)
    (cl : Nat) (c : Char) (sl sc : Nat) (st : SMWriter)
    (hbr : ¬(c = '\r' ∨ c = '\n')) :
    stepChar o sm lb cl c false 0 sl sc st =
      (sl, sc,
        match o with
        | some f => processEmit 0 lb cl f.mapPath sm sl sc
            { st with content := st.content ++ [c] }
        | none => { st with content := st.content ++ [c] }) := by
  cases o <;> simp [stepChar, hbr]

theorem writeLoop_tail_nonbreak : ∀ (cs : List Char) (o : Option File)
    (sm : Option SourceMapData) (lb : Int) (cl : Nat) (i sl sc : Nat) (st : SMWriter),
    (∀ c ∈ cs, ¬(c = '\r' ∨ c = '\n')) → i ≠ 0 →
    writeLoop o sm lb cl cs i sl sc st = { st with content := st.content ++ cs }
  | [], o, sm, lb, cl, i, sl, sc, st, hcs, hi => by simp [writeLoop]
  | [c], o, sm, lb, cl, i, sl, sc, st, hcs, hi => by
    simp only [writeLoop]
    rw [stepChar_nonbreak_noemit o sm lb cl c false i sl sc st (hcs c (by simp)) (by simpa using hi)]
    simp
  | c :: d :: rest, o, sm, lb, cl, i, sl, sc, st, hcs, hi => by
    have hc : ¬(c = '\r' ∨ c = '\n') := hcs c (by simp)
    have hp : ¬(c = '\r' ∧ d = '\n') := fun hcd => hc (Or.inl hcd.1)
    simp only [writeLoop, if_neg hp]
    rw [stepChar_nonbreak_noemit o sm lb cl c false i sl sc st hc (by simpa using hi)]
    rw [writeLoop_tail_nonbreak (d :: rest) o sm lb cl (i + 1) sl sc _
      (fun x hx => hcs x (List.mem_cons_of_mem c hx)) (by omega)]
    simp

theorem finishColumn_builder (lb : Int) (cl : Nat) (st : SMWriter) :
    (finishColumn lb cl st).builder = st.builder := rfl

theorem finishColumn_content (lb : Int) (cl : Nat) (st : SMWriter) :
    (finishColumn lb cl st).content = st.content := rfl

theorem finishColumn_currentLine (lb : Int) (cl : Nat) (st : SMWriter) :
    (finishColumn lb cl st).currentLine = st.currentLine := rfl

theorem no_break_of_hasLineBreak_eq_false {cs : List Char} (h : hasLineBreak cs = false) :
    ∀ c ∈ cs, ¬(c = '\r' ∨ c = '\n') := by
  intro c hc
  simp only [hasLineBreak, List.any_eq_false] at h
  have := h c hc
  simpa using this

theorem lastLineBreakAux_no_break : ∀ (cs : List Char) (i : Nat) (acc : Int),
    (∀ c ∈ cs, ¬(c = '\r' ∨ c = '\n')) → lastLineBreakAux cs i acc = acc
  | [], _, _, _ => rfl
  | c :: rest, i, acc, h => by
    have hc : ¬(c = '\r' ∨ c = '\n') := h c (by simp)
    simp only [lastLineBreakAux, if_neg hc]
    exact lastLineBreakAux_no_break rest (i + 1) acc
      (fun x hx => h x (List.mem_cons_of_mem c hx))

theorem lastLineBreakOf_no_break {cs : List Char}
    (h : ∀ c ∈ cs, ¬(c = '\r' ∨ c = '\n')) : lastLineBreakOf cs = -1 :=
  lastLineBreakAux_no_break cs 0 (-1) h

/-- C1 counterexample: stage-1 writes `"xy"` with no origin and `"z"` with
origin `O:5:7`, so its map `M1` is `[[column 2 → O:5:7]]` and points only
at `O`.  Stage 2 writes stage-1's output `"xyz"` verbatim with stage-1's
file (path `"S1"`) as origin and `M1` as its map.  The composed map's
line 0 then holds two entries whose source paths are `["S1", "O"]`: the
fresh line-start entry points at the stage-1 intermediate file, refuting
"the composed map ... never [points] to the stage-1 intermediate file". -/
theorem c1_counterexample :
    m1Data.sources = ["O"] ∧
    (getLine stage2Writer.builder.mappings 0).map
      (fun m => stage2Writer.builder.sources.getD m.sourceIndex "") = ["S1", "O"] := by
  decide

/-- C1 witness: the general theorem applied to the one-entry splice of the
stage-2 scenario; the copied entry `⟨2, 1, 5, 7⟩` is in the spliced line
and satisfies the disjunction (it is a copy of `M1`'s entry with
`sourceLine`/`sourceColumn`/`nameIndex` preserved and source re-pointed to
`"O"`). -/
theorem c1_splice_preserves_origin_witness :
    (⟨2, 1, 5, 7, none⟩ : Mapping) ∈ (spliceLoop 0 (-1) 3 0 0 m1Data [⟨2, 0, 5, 7, none⟩]
        { file := "out2", sources := ["S1"], mappings := [] } [⟨0, 0, 0, 0, none⟩]).2 ∧
    ((⟨2, 1, 5, 7, none⟩ : Mapping) ∈ [(⟨0, 0, 0, 0, none⟩ : Mapping)] ∨
      ∃ m ∈ [(⟨2, 0, 5, 7, none⟩ : Mapping)],
        (⟨2, 1, 5, 7, none⟩ : Mapping).sourceLine = m.sourceLine ∧
        (⟨2, 1, 5, 7, none⟩ : Mapping).sourceColumn = m.sourceColumn ∧
        (⟨2, 1, 5, 7, none⟩ : Mapping).nameIndex = m.nameIndex ∧
        (spliceLoop 0 (-1) 3 0 0 m1Data [⟨2, 0, 5, 7, none⟩]
            { file := "out2", sources := ["S1"], mappings := [] }
            [⟨0, 0, 0, 0, none⟩]).1.sources.getD
          (⟨2, 1, 5, 7, none⟩ : Mapping).sourceIndex "" =
          m1Data.sources.getD m.sourceIndex "") :=
  ⟨by decide,
    c1_splice_preserves_origin 0 (-1) 3 0 0 m1Data [⟨2, 0, 5, 7, none⟩]
      { file := "out2", sources := ["S1"], mappings := [] } [⟨0, 0, 0, 0, none⟩]
      ⟨2, 1, 5, 7, none⟩ (by decide)⟩

/-- C2: evaluation at the failing input.  After writing `"a\nb"` on a
fresh writer, the true rendered column is 1 (one character after the
break) but the writer stores column 2 (`content.length - lastLineBreak`
at line 224 counts the break character itself).  The next origin-bearing
write `"x"` therefore emits its entry at generated column 2, exceeding
the true rendered column 1 — refuting "emitted mapping entries'
generatedColumn values never exceed the true rendered column". -/
theorem c2_offbyone_eval :
    lastLineLength c2_st1.content = 1 ∧ c2_st1.currentColumn = 2 ∧
    (getLine c2_st2.builder.mappings 1).map (fun m => m.column) = [2] := by
  decide

/-- C3: evaluation at the failing inputs.  First conjunct: a one-line
chunk `"ab"` (no trailing break, `lastLineBreak = -1`) consumes origin
columns `[0, 2)`, yet the origin-map entry at column 5 is copied (rebased
column 5) because the last-line trim of line 194 requires
`i === lastLineBreak`, which is `0 === -1`; the claim requires that entry
to be excluded.  Second conjunct: for `"a\nb"` the last line consumes
origin-line-1 columns `[0, 1)`, so the claim excludes the entry at
column 1 (at the end of the consumed portion), but the code's bound
`content.length - lastLineBreak = 2` keeps it. -/
theorem c3_trim_eval :
    (getLine c3_single.builder.mappings 0).map (fun m => m.column) = [0, 5] ∧
    (getLine c3_multi.builder.mappings 1).map (fun m => m.column) = [0, 1] := by
  decide

/-- C6: single-stage mapping.  On a fresh writer with no indentation,
writing `"abc\ndef"` with origin `(fileA, line 2, column 5)` produces
exactly two mapping entries: line 0 column 0 → `fileA:2:5` and line 1
column 0 → `fileA:3:0` (output line incremented, origin line incremented,
origin column reset to 0, output column reset to 0 at the break).  With a
two-space indent active, the post-break entry instead lands at generated
column 2 = the indent length, still mapped to `fileA:3:0`. -/
theorem c6_single_stage :
    c6_result.builder.mappings = [[⟨0, 0, 2, 5, none⟩], [⟨0, 0, 3, 0, none⟩]] ∧
    c6_result.builder.sources = ["fileA"] ∧
    c6_result.currentLine = 1 ∧
    (getLine c6_indent.builder.mappings 1).map
      (fun m => (m.column, m.sourceLine, m.sourceColumn)) = [(2, 3, 0)] := by
  decide

/-- C7: evaluation at the failing input.  Writing `"ab"` with an origin
whose own (sorted) map has entries at columns 0 and 50 splices the
untrimmed column-50 entry in; the following write `"x"` with a map-less
origin then appends its fresh entry at column 2, leaving line 0's
generated columns `[0, 50, 2]` — not strictly ascending, refuting the
ordering invariant. -/
theorem c7_order_eval :
    (getLine c7_result.builder.mappings 0).map (fun m => m.column) = [0, 50, 2] ∧
    ¬ List.Sorted (· < ·) ((getLine c7_result.builder.mappings 0).map (fun m => m.column)) := by
  decide

/-- C10: an empty write is a complete no-op.  `SourceMapWriter.write`
with empty content returns the state unchanged (even with an origin
file/line/column supplied): nothing is appended, the cursor stays, and no
mapping entry is emitted; likewise the base `Writer.write` appends
nothing. -/
theorem c10_empty_write_noop :
    (∀ (st : SMWriter) (origin : Option (File × Nat × Nat)),
      SourceMapWriter.write st [] origin = st) ∧
    (∀ (wcontent indentString : List Char),
      Writer.write wcontent indentString [] = wcontent) := by
  constructor
  · intro st origin
    simp [SourceMapWriter.write, writeLoop, lastLineBreakOf, lastLineBreakAux, finishColumn]
  · intro w ind
    by_cases h : ind = [] <;> simp [Writer.write, indentAfterBreaks, h]

/-- C4 counterexample: line breaks are NOT normalized to a single `\n` in
the accumulated content.  Writing a lone `"\r"` appends `'\r'` itself
(line 149 appends `charAt(i)` verbatim; the `ch = 10` of line 158 only
affects the local cursor logic), and writing `"\r\n"` appends the
two-character pair (lines 149 and 156), not a single `\n`. -/
theorem c4_counterexample :
    (SourceMapWriter.write (freshWriter "o") ['\r'] none).content = ['\r'] ∧
    (SourceMapWriter.write (freshWriter "o") ['\r'] none).content ≠ ['\n'] ∧
    (SourceMapWriter.write (freshWriter "o") ['\r', '\n'] none).content = ['\r', '\n'] ∧
    (SourceMapWriter.write (freshWriter "o") ['\r', '\n'] none).content ≠ ['\n'] := by
  decide

/-- C4 (amended): with no indent active, `SourceMapWriter.write` appends
its input to the accumulated content verbatim — `\r\n`, lone `\r` and
lone `\n` are all copied as-is, not normalized — while each of the three
break forms (the two-character `\r\n` pair included) still counts as
exactly one line break for cursor purposes: the output line advances by
`countLineBreaks content`. -/
theorem c4_breaks_verbatim (st : SMWriter) (content : List Char)
    (origin : Option (File × Nat × Nat)) (h : st.indentString = []) :
    (SourceMapWriter.write st content origin).content = st.content ++ content ∧
    (SourceMapWriter.write st content origin).currentLine =
      st.currentLine + countLineBreaks content := by
  obtain ⟨h1, h2, h3⟩ := writeLoop_verbatim content (originFileOf origin) (srcMapOf origin)
    (lastLineBreakOf content) content.length 0 (originLineOf origin) (originColOf origin) st h
  exact ⟨by rw [SourceMapWriter.write, finishColumn_content, h1],
    by rw [SourceMapWriter.write, finishColumn_currentLine, h2]⟩

/-- C4 witness: the amended theorem applied on a fresh writer (which has
no indent) to `"a\r\nb\rc"`: content is appended verbatim and the line
advances by its two line breaks. -/
theorem c4_breaks_verbatim_witness :
    (freshWriter "o").indentString = [] ∧
    ((SourceMapWriter.write (freshWriter "o") ("a\r\nb\rc".toList) none).content =
        (freshWriter "o").content ++ "a\r\nb\rc".toList ∧
      (SourceMapWriter.write (freshWriter "o") ("a\r\nb\rc".toList) none).currentLine =
        (freshWriter "o").currentLine + countLineBreaks ("a\r\nb\rc".toList)) :=
  ⟨rfl, c4_breaks_verbatim (freshWriter "o") ("a\r\nb\rc".toList) none rfl⟩

theorem write_none_eq (st : SMWriter) (content : List Char) :
    SourceMapWriter.write st content none =
      finishColumn (lastLineBreakOf content) content.length
        (writeLoop none none (lastLineBreakOf content) content.length content 0 0 0 st) := rfl

theorem write_some_eq (st : SMWriter) (content : List Char) (f : File) (l c : Nat) :
    SourceMapWriter.write st content (some (f, l, c)) =
      finishColumn (lastLineBreakOf content) content.length
        (writeLoop (some f) f.sourceMapBuilder (lastLineBreakOf content) content.length
          content 0 l c st) := rfl

/-- C5: mapping emission is tied to the origin argument.  (1) A write
with no origin leaves the whole builder (mappings and sources) untouched.
(2) A no-origin write and an origin-bearing write of the same content
advance the cursor-visible state (content, output line, output column)
identically, so subsequent origin-bearing writes land at the same place.
(3) A write of nonempty, break-free content with an origin file that
carries no map of its own emits exactly one mapping entry, at `i == 0`:
the line of the table addressed by the current output line gains exactly
the fresh entry `⟨currentColumn, addSource(path), l, c⟩` at its end, and
no other line changes. -/
theorem c5_emission :
    (∀ (st : SMWriter) (content : List Char),
      (SourceMapWriter.write st content none).builder = st.builder) ∧
    (∀ (st : SMWriter) (content : List Char) (o : File × Nat × Nat),
      (SourceMapWriter.write st content none).content =
        (SourceMapWriter.write st content (some o)).content ∧
      (SourceMapWriter.write st content none).currentLine =
        (SourceMapWriter.write st content (some o)).currentLine ∧
      (SourceMapWriter.write st content none).currentColumn =
        (SourceMapWriter.write st content (some o)).currentColumn) ∧
    (∀ (st : SMWriter) (content : List Char) (f : File) (l c : Nat),
      content ≠ [] → hasLineBreak content = false → f.sourceMapBuilder = none →
      (SourceMapWriter.write st content (some (f, l, c))).builder.mappings =
        setLine st.builder.mappings st.currentLine
          (getLine st.builder.mappings st.currentLine ++
            [⟨st.currentColumn, (addSource st.builder f.mapPath).2, l, c, none⟩])) := by
  refine ⟨?_, ?_, ?_⟩
  · intro st content
    rw [write_none_eq, finishColumn_builder]
    exact writeLoop_builder_none content none _ _ _ _ _ st
  · intro st content o
    obtain ⟨f, l, c⟩ := o
    rw [write_none_eq, write_some_eq]
    obtain ⟨h1, h2, h3, h4⟩ := writeLoop_cursorEq content none (some f) none
      f.sourceMapBuilder (lastLineBreakOf content) (lastLineBreakOf content)
      content.length content.length 0 0 0 0 l c st st ⟨rfl, rfl, rfl, rfl⟩
    refine ⟨by rw [finishColumn_content, finishColumn_content]; exact h1,
      by rw [finishColumn_currentLine, finishColumn_currentLine]; exact h3, ?_⟩
    simp only [finishColumn]
    simp only [h2, h4]
  · intro st content f l c hne hnb hsmb
    obtain ⟨c0, rest, rfl⟩ : ∃ c0 rest, content = c0 :: rest := by
      cases content with
      | nil => exact absurd rfl hne
      | cons a as => exact ⟨a, as, rfl⟩
    have hall := no_break_of_hasLineBreak_eq_false hnb
    have hc0 : ¬(c0 = '\r' ∨ c0 = '\n') := hall c0 (by simp)
    have hlb : lastLineBreakOf (c0 :: rest) = -1 := lastLineBreakOf_no_break hall
    rw [write_some_eq, hsmb, hlb, finishColumn_builder]
    cases rest with
    | nil =>
      simp only [writeLoop]
      rw [stepChar_first_nonbreak (some f) none (-1) [c0].length c0 l c st hc0]
      simp only [processEmit_none_eq]
      rw [addSource_mappings]
    | cons d rest2 =>
      have hp : ¬(c0 = '\r' ∧ d = '\n') := fun hcd => hc0 (Or.inl hcd.1)
      simp only [writeLoop, if_neg hp]
      rw [stepChar_first_nonbreak (some f) none (-1) (c0 :: d :: rest2).length c0 l c st hc0]
      rw [writeLoop_tail_nonbreak (d :: rest2) (some f) none (-1) (c0 :: d :: rest2).length
        1 l c _ (fun x hx => hall x (List.mem_cons_of_mem c0 hx)) (by omega)]
      simp only [processEmit_none_eq]
      rw [addSource_mappings]

/-- C5 witness: the third conjunct of `c5_emission` applied on a fresh
writer to the one-character break-free content `"x"` with the map-less
origin `(c5_file, 3, 4)`. -/
theorem c5_emission_witness :
    (("x".toList : List Char) ≠ [] ∧ hasLineBreak ("x".toList) = false ∧
      c5_file.sourceMapBuilder = none) ∧
    (SourceMapWriter.write (freshWriter "o") ("x".toList)
        (some (c5_file, 3, 4))).builder.mappings =
      setLine (freshWriter "o").builder.mappings (freshWriter "o").currentLine
        (getLine (freshWriter "o").builder.mappings (freshWriter "o").currentLine ++
          [⟨(freshWriter "o").currentColumn,
            (addSource (freshWriter "o").builder c5_file.mapPath).2, 3, 4, none⟩]) :=
  ⟨⟨by decide, by decide, rfl⟩,
    c5_emission.2.2 (freshWriter "o") ("x".toList) c5_file 3 4 (by decide) (by decide) rfl⟩

theorem bufCopy_length (source target : List Nat) (ts ss se : Nat) (h : ts ≤ target.length) :
    (bufCopy source target ts ss se).length = target.length := by
  simp only [bufCopy, List.length_append, List.length_take, List.length_drop]
  omega

theorem ensureCapacity_length (s : BufferStream) (n : Nat) :
    (s.ensureCapacity n).length = s.length := by
  simp only [BufferStream.ensureCapacity]
  split <;> rfl

theorem ensureCapacity_buffer_length_of_not_lt (s : BufferStream) (n : Nat)
    (h : ¬ n < s.buffer.length) :
    (s.ensureCapacity n).buffer.length = min n (s.buffer.length * 2 - 1) := by
  simp only [BufferStream.ensureCapacity, if_neg h]
  rw [bufCopy_length _ _ _ _ _ (Nat.zero_le _)]
  simp [allocUnsafe]

theorem BufferStream._write_length (s : BufferStream) (chunk : List Nat) :
    (BufferStream._write s chunk).length = s.length + chunk.length := by
  simp only [BufferStream._write]
  rw [ensureCapacity_length]

theorem BufferStream._write_buffer_length (s : BufferStream) (chunk : List Nat)
    (h : (s.ensureCapacity (s.length + chunk.length)).length ≤
      (s.ensureCapacity (s.length + chunk.length)).buffer.length) :
    (BufferStream._write s chunk).buffer.length =
      (s.ensureCapacity (s.length + chunk.length)).buffer.length := by
  simp only [BufferStream._write]
  exact bufCopy_length _ _ _ _ _ h

/-- C8: evaluation at the failing input.  Appending one 262144-byte chunk
(total L = 262144 > C = 131072) to a fresh stream leaves
`length = 262144` but `capacity = min(262144, 2·131072 − 1) = 262143 < L`:
`ensureCapacity` (line 302) clamps the new capacity with `Math.min`
instead of raising it to the requested length, so the append does NOT
ensure `capacity ≥ length + chunk.length`, refuting `capacity >= L` (and
the final byte of the chunk is silently dropped by the truncated copy). -/
theorem c8_growth_eval :
    c8_result.length = 262144 ∧ c8_result.buffer.length = 262143 ∧
    ¬ (c8_result.length ≤ c8_result.buffer.length) := by
  have hinitlen : BufferStream.initial.length = 0 := rfl
  have hinitcap : BufferStream.initial.buffer.length = 131072 := by
    show (List.replicate (128 * 1024) (0 : Nat)).length = 131072
    rw [List.length_replicate]
  have hreq : BufferStream.initial.length + (List.replicate 262144 (1 : Nat)).length
      = 262144 := by
    rw [List.length_replicate, hinitlen]
  have hnotlt : ¬ ((262144 : Nat) < BufferStream.initial.buffer.length) := by
    rw [hinitcap]
    omega
  have hcap : (BufferStream.initial.ensureCapacity 262144).buffer.length = 262143 := by
    rw [ensureCapacity_buffer_length_of_not_lt _ _ hnotlt, hinitcap]
    omega
  have hlen0 : (BufferStream.initial.ensureCapacity 262144).length = 0 := by
    rw [ensureCapacity_length]
    rfl
  have h1 : c8_result.length = 262144 := by
    show (BufferStream._write BufferStream.initial (List.replicate 262144 1)).length = 262144
    rw [BufferStream._write_length]
    exact hreq
  have h2 : c8_result.buffer.length = 262143 := by
    show (BufferStream._write BufferStream.initial
      (List.replicate 262144 1)).buffer.length = 262143
    rw [BufferStream._write_buffer_length _ _ (by rw [hreq, hlen0, hcap]; omega)]
    rw [hreq]
    exact hcap
  exact ⟨h1, h2, by rw [h1, h2]; omega⟩

/-- C9: evaluation at the failing input.  After appending one 262145-byte
chunk to a fresh stream, `length = 262145 > capacity = 262143`, refuting
the invariant `length <= capacity` for reachable states: `_write`
advances `_length` by the full chunk length (line 318) even though
`ensureCapacity`'s `Math.min` clamp (line 302) capped the capacity below
the requested length. -/
theorem c9_invariant_eval :
    c9_result.length = 262145 ∧ c9_result.buffer.length = 262143 ∧
    ¬ (c9_result.length ≤ c9_result.buffer.length) := by
  have hinitlen : BufferStream.initial.length = 0 := rfl
  have hinitcap : BufferStream.initial.buffer.length = 131072 := by
    show (List.replicate (128 * 1024) (0 : Nat)).length = 131072
    rw [List.length_replicate]
  have hreq : BufferStream.initial.length + (List.replicate 262145 (2 : Nat)).length
      = 262145 := by
    rw [List.length_replicate, hinitlen]
  have hnotlt : ¬ ((262145 : Nat) < BufferStream.initial.buffer.length) := by
    rw [hinitcap]
    omega
  have hcap : (BufferStream.initial.ensureCapacity 262145).buffer.length = 262143 := by
    rw [ensureCapacity_buffer_length_of_not_lt _ _ hnotlt, hinitcap]
    omega
  have hlen0 : (BufferStream.initial.ensureCapacity 262145).length = 0 := by
    rw [ensureCapacity_length]
    rfl
  have h1 : c9_result.length = 262145 := by
    show (BufferStream._write BufferStream.initial (List.replicate 262145 2)).length = 262145
    rw [BufferStream._write_length]
    exact hreq
  have h2 : c9_result.buffer.length = 262143 := by
    show (BufferStream._write BufferStream.initial
      (List.replicate 262145 2)).buffer.length = 262143
    rw [BufferStream._write_buffer_length _ _ (by rw [hreq, hlen0, hcap]; omega)]
    rw [hreq]
    exact hcap
  exact ⟨h1, h2, by rw [h1, h2]; omega⟩
